import Mathlib

/-!
# ChapterMaker: verification of the job-orchestration pipeline model

A shallow embedding of the chaptermaker repository: the GCS retention
lifecycle configuration (`scripts/setup-gcs-lifecycle.ps1`), the frontend
upload-queue and polling logic (`frontend/src/context/VideoContext.jsx`),
and — for the backend orchestrator, which is consumed here only through its
HTTP interface — a model built from the specification's own words
(status state machine, stage checkpoints, results population, job store,
chapter sanitization).
-/

namespace ChapterMaker

/-- Job status values, from the spec data model and the frontend's
status handling (`pending | processing | completed | failed | cancelled`). -/
inductive JobStatus
  | pending
  | processing
  | completed
  | failed
  | cancelled
deriving DecidableEq, Repr

/-- The terminal statuses checked by `pollJobStatus` in VideoContext.jsx:
`completed`, `failed`, `cancelled`. -/
def JobStatus.isTerminal : JobStatus → Bool
  | .completed => true
  | .failed => true
  | .cancelled => true
  | .pending => false
  | .processing => false

/-- A persisted Job snapshot as seen by a polling client:
status, progress, results mapping (artifact names), error text. -/
structure Snapshot where
  status : JobStatus
  progress : Nat
  results : List String
  error : Option String
deriving DecidableEq, Repr

/-- Modelled from the spec: a Job is created in `pending` with empty
`results`, no `error`, progress 0. -/
def initialSnapshot : Snapshot :=
  { status := .pending, progress := 0, results := [], error := none }

/-- Modelled from the spec: the artifact names recorded in `results`
at completion (`chapters`, `subtitles`, `transcript`, `slides`). -/
def artifactNames : List String :=
  ["chapters", "subtitles", "transcript", "slides"]

/-- Modelled from the spec: the stage-specific progress checkpoint values
persisted after each of the six stages (15/40/60/80/95/100). -/
def stageCheckpoints : List Nat := [15, 40, 60, 80, 95, 100]

/-- What happens at one stage boundary: the stage succeeds, the stage
raises a non-retryable error, or an external cancellation signal is seen. -/
inductive StageEvent
  | ok
  | fail (msg : String)
  | cancel
deriving DecidableEq, Repr

/-- Modelled from the spec: the orchestrator's stage loop (the backend is
not under src/, only its HTTP clients are). Runs the stages in order
against their checkpoint values, persisting a snapshot after every stage
boundary: an `ok` stage advances `progress` to the stage checkpoint
(completion of the last stage instead sets `completed`, progress 100 and
populates `results`); a failing stage stops with `failed` and the stage's
error text and no later stage runs; a cancellation seen at a stage
boundary stops with `cancelled`. Returns the list of persisted snapshots. -/
def runStages (s : Snapshot) : List Nat → List StageEvent → List Snapshot
  | _, [] => []
  | [], _ => []
  | cp :: cps, e :: es =>
    match e with
    | .cancel => [{ s with status := .cancelled }]
    | .fail msg => [{ s with status := .failed, error := some msg }]
    | .ok =>
      match cps with
      | [] =>
        [{ s with status := .completed, progress := 100, results := artifactNames }]
      | _ :: _ =>
        let s2 := { s with progress := cp }
        s2 :: runStages s2 cps es

/-- Modelled from the spec: the full sequence of persisted snapshots of one
job, starting `pending`, then `processing` at progress 0 when the worker
dequeues it, then one snapshot per executed stage boundary. The `events`
parameter is the failure-injection point: which stages succeed, fail, or
observe a cancellation. A short `events` list is a job still in flight. -/
def pipelineTrace (events : List StageEvent) : List Snapshot :=
  let s1 : Snapshot := { initialSnapshot with status := .processing, progress := 0 }
  initialSnapshot :: s1 :: runStages s1 stageCheckpoints events

/-- Modelled from the spec: the body of `GET /jobs/{job_id}/results` —
status together with one download URL per recorded artifact. -/
structure ResultsResponse where
  status : JobStatus
  downloadUrls : List (String × String)
deriving DecidableEq, Repr

/-- Modelled from the spec: one signed download link per artifact name. -/
def signedUrlFor (a : String) : String :=
  "https://storage.example/outputs/" ++ a

/-- Modelled from the spec: `GET /jobs/{job_id}/results` derives
`download_urls` from the snapshot's `results` mapping. -/
def resultsResponse (s : Snapshot) : ResultsResponse :=
  { status := s.status, downloadUrls := s.results.map (fun a => (a, signedUrlFor a)) }

/-- Invariant carried through the stage loop: from a `processing` snapshot
with empty `results`, every later persisted snapshot has non-empty
`results` exactly when its status is `completed`. -/
theorem runStages_results_inv (cps : List Nat) (es : List StageEvent)
    (s : Snapshot) (hres : s.results = []) (hst : s.status = .processing) :
    ∀ t ∈ runStages s cps es, (t.results ≠ [] ↔ t.status = .completed) := by
  induction es generalizing cps s with
  | nil => intro t ht; simp [runStages] at ht
  | cons e es ih =>
    intro t ht
    cases cps with
    | nil => simp [runStages] at ht
    | cons cp cps =>
      cases e with
      | cancel =>
        simp only [runStages, List.mem_singleton] at ht
        subst ht
        simp [hres, hst]
      | fail msg =>
        simp only [runStages, List.mem_singleton] at ht
        subst ht
        simp [hres, hst]
      | ok =>
        cases cps with
        | nil =>
          simp only [runStages, List.mem_singleton] at ht
          subst ht
          simp [artifactNames]
        | cons cp2 cps2 =>
          simp only [runStages, List.mem_cons] at ht
          rcases ht with rfl | ht
          · simp [hres, hst]
          · exact ih (cp2 :: cps2) { s with progress := cp } hres hst t ht

/-- C1 — For every job, the `results` mapping is non-empty if and only if
`status == completed`; `GET /jobs/{job_id}/results` includes
`download_urls` exactly when the job's status is `completed`, and for any
non-completed status the results/download_urls are absent or empty. -/
theorem results_nonempty_iff_completed (events : List StageEvent)
    (snap : Snapshot) (h : snap ∈ pipelineTrace events) :
    (snap.results ≠ [] ↔ snap.status = .completed) ∧
    ((resultsResponse snap).downloadUrls ≠ [] ↔ snap.status = .completed) := by
  have hmain : snap.results ≠ [] ↔ snap.status = .completed := by
    simp only [pipelineTrace, List.mem_cons] at h
    rcases h with rfl | rfl | h
    · simp [initialSnapshot]
    · simp [initialSnapshot]
    · exact runStages_results_inv stageCheckpoints events _ rfl rfl snap h
  refine ⟨hmain, ?_⟩
  rw [← hmain]
  simp [resultsResponse]

/-- Witness for C1: evaluates the invariant on the completed snapshot of a
fully successful run and on the failed snapshot of a run whose second
stage fails. -/
theorem results_nonempty_iff_completed_witness :
    (let snap : Snapshot :=
      { status := .completed, progress := 100, results := artifactNames, error := none }
     (snap.results ≠ [] ↔ snap.status = .completed) ∧
     ((resultsResponse snap).downloadUrls ≠ [] ↔ snap.status = .completed)) ∧
    (let snap2 : Snapshot :=
      { status := .failed, progress := 15, results := [], error := some "boom" }
     (snap2.results ≠ [] ↔ snap2.status = .completed) ∧
     ((resultsResponse snap2).downloadUrls ≠ [] ↔ snap2.status = .completed)) :=
  ⟨results_nonempty_iff_completed
      [.ok, .ok, .ok, .ok, .ok, .ok] _ (by decide),
   results_nonempty_iff_completed
      [.ok, .fail "boom"] _ (by decide)⟩

/-- Progress values along the stage loop stay bounded by 100 and
non-decreasing, provided the remaining checkpoints dominate the current
progress, are sorted and bounded. -/
theorem runStages_progress (cps : List Nat) (es : List StageEvent)
    (s : Snapshot) (hb : s.progress ≤ 100) (hcpb : ∀ c ∈ cps, c ≤ 100)
    (hchain : List.Chain' (· ≤ ·) (s.progress :: cps)) :
    (∀ t ∈ runStages s cps es, t.progress ≤ 100) ∧
    List.Chain' (fun a b => a.progress ≤ b.progress) (s :: runStages s cps es) := by
  induction es generalizing cps s with
  | nil =>
    refine ⟨?_, ?_⟩
    · intro t ht; simp [runStages] at ht
    · simp [runStages]
  | cons e es ih =>
    cases cps with
    | nil =>
      constructor
      · intro t ht; simp [runStages] at ht
      · simp [runStages]
    | cons cp cps =>
      have hscp : s.progress ≤ cp := (List.chain'_cons.mp hchain).1
      have hcp100 : cp ≤ 100 := hcpb cp (by simp)
      cases e with
      | cancel =>
        refine ⟨?_, ?_⟩
        · intro t ht
          simp only [runStages, List.mem_singleton] at ht
          subst ht; exact hb
        · simp [runStages]
      | fail msg =>
        refine ⟨?_, ?_⟩
        · intro t ht
          simp only [runStages, List.mem_singleton] at ht
          subst ht; exact hb
        · simp [runStages]
      | ok =>
        cases cps with
        | nil =>
          refine ⟨?_, ?_⟩
          · intro t ht
            simp only [runStages, List.mem_singleton] at ht
            subst ht; exact le_refl 100
          · simp [runStages, hb]
        | cons cp2 cps2 =>
          have hrec := ih (cp2 :: cps2) { s with progress := cp } hcp100
            (fun c hc => hcpb c (List.mem_cons_of_mem _ hc))
            (List.chain'_cons.mp hchain).2
          refine ⟨?_, ?_⟩
          · intro t ht
            simp only [runStages, List.mem_cons] at ht
            rcases ht with rfl | ht
            · exact hcp100
            · exact hrec.1 t ht
          · show List.Chain' _ (s :: ({ s with progress := cp } : Snapshot) ::
              runStages { s with progress := cp } (cp2 :: cps2) es)
            exact List.chain'_cons.mpr ⟨hscp, hrec.2⟩

/-- C3 — For every job, `progress` is an integer in the range 0–100, and
successive persisted updates (hence successive polls) yield non-decreasing
progress values. (Progress is a `Nat` in the model, so `0 ≤ progress` is
implicit.) -/
theorem progress_bounded_and_monotone (events : List StageEvent) :
    (∀ snap ∈ pipelineTrace events, snap.progress ≤ 100) ∧
    List.Chain' (fun a b => a.progress ≤ b.progress) (pipelineTrace events) := by
  have h := runStages_progress stageCheckpoints events
    { initialSnapshot with status := .processing, progress := 0 }
    (by simp [initialSnapshot]) (by decide)
    (by simp [initialSnapshot, stageCheckpoints])
  constructor
  · intro snap hsnap
    simp only [pipelineTrace, List.mem_cons] at hsnap
    rcases hsnap with rfl | rfl | hsnap
    · simp [initialSnapshot]
    · simp [initialSnapshot]
    · exact h.1 snap hsnap
  · exact List.chain'_cons.mpr ⟨by simp [initialSnapshot], h.2⟩

/-- Witness for C3: evaluates the bound on the second snapshot of a run
with one failing stage. -/
theorem progress_bounded_and_monotone_witness :
    ((pipelineTrace [.ok, .fail "bad input"]).get ⟨2, by decide⟩).progress ≤ 100 :=
  (progress_bounded_and_monotone [.ok, .fail "bad input"]).1 _
    (List.get_mem _ _ (by decide))

/-- Modelled from the spec: the allowed persisted `status` transitions
(`pending → processing → {completed | failed}`, `cancelled` reachable from
`pending` or `processing`, and repeated persists of the same status while
a stage-boundary update only changes progress/message). -/
def statusStep (a b : JobStatus) : Prop :=
  a = b ∨
  (a = .pending ∧ b = .processing) ∨
  (a = .processing ∧ (b = .completed ∨ b = .failed)) ∨
  ((a = .pending ∨ a = .processing) ∧ b = .cancelled)

instance : DecidableRel statusStep :=
  fun a b =>
    inferInstanceAs (Decidable (a = b ∨
      (a = .pending ∧ b = .processing) ∨
      (a = .processing ∧ (b = .completed ∨ b = .failed)) ∨
      ((a = .pending ∨ a = .processing) ∧ b = .cancelled)))

/-- No allowed transition leaves a terminal status. -/
theorem statusStep_of_terminal {a b : JobStatus}
    (ha : a.isTerminal = true) (h : statusStep a b) : b = a := by
  rcases h with rfl | ⟨rfl, _⟩ | ⟨rfl, _⟩ | ⟨ha2, _⟩
  · rfl
  · simp [JobStatus.isTerminal] at ha
  · simp [JobStatus.isTerminal] at ha
  · rcases ha2 with rfl | rfl <;> simp [JobStatus.isTerminal] at ha

/-- The statuses persisted by the stage loop form a `statusStep` chain. -/
theorem runStages_status_chain (cps : List Nat) (es : List StageEvent)
    (s : Snapshot) (hst : s.status = .processing) :
    List.Chain' statusStep (s.status :: (runStages s cps es).map Snapshot.status) := by
  induction es generalizing cps s with
  | nil => simp [runStages]
  | cons e es ih =>
    cases cps with
    | nil => simp [runStages]
    | cons cp cps =>
      cases e with
      | cancel => simp [runStages, statusStep, hst]
      | fail msg => simp [runStages, statusStep, hst]
      | ok =>
        cases cps with
        | nil => simp [runStages, statusStep, hst]
        | cons cp2 cps2 =>
          have hrec := ih (cp2 :: cps2) { s with progress := cp } hst
          show List.Chain' statusStep (s.status :: ({ s with progress := cp } : Snapshot).status ::
            (runStages { s with progress := cp } (cp2 :: cps2) es).map Snapshot.status)
          exact List.chain'_cons.mpr ⟨Or.inl rfl, hrec⟩

/-- Along any `statusStep` chain, a terminal status at position `i`
forces every later position to carry the same status. -/
theorem chain_terminal_frozen (updates : List JobStatus)
    (hchain : List.Chain' statusStep updates)
    (i : Nat) (hi : i < updates.length)
    (hterm : (updates.get ⟨i, hi⟩).isTerminal = true) :
    ∀ j, i ≤ j → ∀ (hj : j < updates.length),
      updates.get ⟨j, hj⟩ = updates.get ⟨i, hi⟩ := by
  intro j hij
  induction j, hij using Nat.le_induction with
  | base => intro hj; rfl
  | succ j hij ih =>
    intro hj
    have hj' : j < updates.length := by omega
    have hjj : j < updates.length - 1 := by omega
    have hstep := List.chain'_iff_get.mp hchain j hjj
    have hprev := ih hj'
    have hterm' : (updates.get ⟨j, hj'⟩).isTerminal = true := by
      rw [hprev]; exact hterm
    exact (statusStep_of_terminal hterm' hstep).trans hprev

/-- C2 — Terminal states are absorbing: the persisted status sequence of
the modelled pipeline is a valid `statusStep` chain, and along any valid
chain of status updates, once the status takes a terminal value
(`completed`, `failed` or `cancelled`) every subsequent update carries the
same status — so a polling client sees at most one transition into a
terminal value and none out of it. -/
theorem terminal_states_absorbing (events : List StageEvent)
    (updates : List JobStatus) (hchain : List.Chain' statusStep updates)
    (i j : Nat) (hij : i ≤ j) (hj : j < updates.length)
    (hterm : (updates.get ⟨i, lt_of_le_of_lt hij hj⟩).isTerminal = true) :
    List.Chain' statusStep ((pipelineTrace events).map Snapshot.status) ∧
    updates.get ⟨j, hj⟩ = updates.get ⟨i, lt_of_le_of_lt hij hj⟩ := by
  constructor
  · have h := runStages_status_chain stageCheckpoints events
      { initialSnapshot with status := .processing, progress := 0 } rfl
    simp only [pipelineTrace, List.map_cons]
    exact List.chain'_cons.mpr ⟨Or.inr (Or.inl ⟨rfl, rfl⟩), h⟩
  · exact chain_terminal_frozen updates hchain i
      (lt_of_le_of_lt hij hj) hterm j hij hj

/-- Witness for C2: a concrete valid update sequence that enters `failed`
at index 2 and must still read `failed` at index 3. -/
theorem terminal_states_absorbing_witness :
    List.Chain' statusStep ((pipelineTrace [.ok, .fail "x"]).map Snapshot.status) ∧
    [JobStatus.pending, .processing, .failed, .failed].get ⟨3, by decide⟩ =
      [JobStatus.pending, .processing, .failed, .failed].get ⟨2, by decide⟩ :=
  terminal_states_absorbing [.ok, .fail "x"]
    [JobStatus.pending, .processing, .failed, .failed]
    (by simp [List.chain'_cons, statusStep]) 2 3 (by decide) (by decide) (by decide)

/-- A chapter boundary: timestamp (seconds into the media) and title. -/
structure Chapter where
  timestamp : Nat
  title : String
deriving DecidableEq, Repr

/-- Modelled from the spec: Chapter Generation clamps an out-of-range
timestamp returned by the external service into the media duration. -/
def clampChapter (duration : Nat) (c : Chapter) : Chapter :=
  { c with timestamp := min c.timestamp duration }

/-- Modelled from the spec: de-duplication pass over the (ordered) clamped
boundaries — a boundary is kept only when its timestamp strictly exceeds
the last kept timestamp, so ties and non-increasing entries are dropped. -/
def dedupFrom (last : Nat) : List Chapter → List Chapter
  | [] => []
  | c :: rest =>
    if last < c.timestamp then c :: dedupFrom c.timestamp rest
    else dedupFrom last rest

/-- Modelled from the spec: the sanitization performed by the Chapter
Generation stage before handing boundaries downstream: clamp every
timestamp into `[0, duration]`, then de-duplicate. -/
def sanitizeChapters (duration : Nat) (raw : List Chapter) : List Chapter :=
  match raw.map (clampChapter duration) with
  | [] => []
  | c :: rest => c :: dedupFrom c.timestamp rest

/-- Every chapter kept by the de-duplication pass comes from the input and
has a timestamp strictly above the running lower bound. -/
theorem dedupFrom_mem (l : List Chapter) (last : Nat) :
    ∀ c ∈ dedupFrom last l, c ∈ l ∧ last < c.timestamp := by
  induction l generalizing last with
  | nil => intro c hc; simp [dedupFrom] at hc
  | cons a l ih =>
    intro c hc
    simp only [dedupFrom] at hc
    by_cases h : last < a.timestamp
    · rw [if_pos h] at hc
      rcases List.mem_cons.mp hc with heq | hc
      · subst heq
        exact ⟨List.mem_cons_self _ _, h⟩
      · obtain ⟨hmem, hgt⟩ := ih a.timestamp c hc
        exact ⟨List.mem_cons_of_mem a hmem, lt_trans h hgt⟩
    · rw [if_neg h] at hc
      obtain ⟨hmem, hgt⟩ := ih last c hc
      exact ⟨List.mem_cons_of_mem a hmem, hgt⟩

/-- The de-duplication pass returns a strictly increasing sequence. -/
theorem dedupFrom_chain (l : List Chapter) (last : Nat) :
    List.Chain' (fun a b => a.timestamp < b.timestamp) (dedupFrom last l) := by
  induction l generalizing last with
  | nil => simp [dedupFrom]
  | cons a l ih =>
    simp only [dedupFrom]
    by_cases h : last < a.timestamp
    · rw [if_pos h]
      refine List.chain'_cons'.mpr ⟨?_, ih a.timestamp⟩
      intro b hb
      exact (dedupFrom_mem l a.timestamp b (List.mem_of_mem_head? hb)).2
    · rw [if_neg h]
      exact ih last

/-- C6 — The chapter boundaries produced by Chapter Generation are
strictly increasing in timestamp and all lie within `[0, media_duration]`,
for every raw sequence the external service may return (ties and
out-of-range timestamps are clamped/de-duplicated, never passed on).
Timestamps are `Nat`, so `0 ≤ timestamp` is implicit. -/
theorem chapters_strictly_increasing_in_range (duration : Nat) (raw : List Chapter) :
    List.Chain' (fun a b => a.timestamp < b.timestamp) (sanitizeChapters duration raw) ∧
    ∀ c ∈ sanitizeChapters duration raw, c.timestamp ≤ duration := by
  unfold sanitizeChapters
  cases hmap : raw.map (clampChapter duration) with
  | nil => simp
  | cons c0 rest =>
    have hbound : ∀ c ∈ c0 :: rest, c.timestamp ≤ duration := by
      rw [← hmap]
      intro c hc
      obtain ⟨a, _, rfl⟩ := List.mem_map.mp hc
      simp [clampChapter]
    refine ⟨?_, ?_⟩
    · refine List.chain'_cons'.mpr ⟨?_, dedupFrom_chain rest c0.timestamp⟩
      intro b hb
      exact (dedupFrom_mem rest c0.timestamp b (List.mem_of_mem_head? hb)).2
    · intro c hc
      rcases List.mem_cons.mp hc with rfl | hc
      · exact hbound c (List.mem_cons_self _ _)
      · exact hbound c
          (List.mem_cons_of_mem _ (dedupFrom_mem rest c0.timestamp c hc).1)

/-- Witness for C6: sanitizing a raw sequence with a tie and an
out-of-range timestamp yields a strictly increasing, in-range sequence. -/
theorem chapters_strictly_increasing_in_range_witness :
    List.Chain' (fun a b => a.timestamp < b.timestamp)
      (sanitizeChapters 600 [⟨0, "Intro"⟩, ⟨0, "Dup"⟩, ⟨120, "Body"⟩, ⟨9000, "Over"⟩]) ∧
    ∀ c ∈ sanitizeChapters 600 [⟨0, "Intro"⟩, ⟨0, "Dup"⟩, ⟨120, "Body"⟩, ⟨9000, "Over"⟩],
      c.timestamp ≤ 600 :=
  chapters_strictly_increasing_in_range 600 _

/-- The reply of `GET /jobs/{job_id}`: a `200` snapshot or a `404`. -/
inductive JobReply
  | ok (snap : Snapshot)
  | notFound
deriving DecidableEq, Repr

/-- Modelled from the spec: the Job Store lookup behind `GET /jobs/{job_id}`
— return the stored snapshot for a known id, `404` for an unknown one. -/
def getJob (store : List (String × Snapshot)) (id : String) : JobReply :=
  match store.find? (fun kv => kv.1 == id) with
  | some kv => .ok kv.2
  | none => .notFound

/-- Modelled from the spec: the Retention Sweeper destroying a job's
bookkeeping record removes its entry from the Job Store. -/
def deleteJob (store : List (String × Snapshot)) (id : String) :
    List (String × Snapshot) :=
  store.filter (fun kv => kv.1 != id)

/-- Lookup of an id that no entry carries answers `404`. -/
theorem getJob_eq_notFound (store : List (String × Snapshot)) (id : String)
    (h : ∀ snap, (id, snap) ∉ store) : getJob store id = .notFound := by
  induction store with
  | nil => rfl
  | cons kv store ih =>
    have hne : (kv.1 == id) = false := by
      by_contra hcontra
      have : kv.1 = id := by
        cases hbe : kv.1 == id with
        | false => exact absurd hbe hcontra
        | true => exact of_decide_eq_true hbe
      exact h kv.2 (by rw [← this]; exact List.mem_cons_self kv store)
    simp only [getJob, List.find?]
    rw [hne]
    exact ih (fun snap hsnap => h snap (List.mem_cons_of_mem kv hsnap))

/-- C7 — `GET /jobs/{job_id}` returns the current snapshot for every known
job id and `404` for every unknown id; a job deleted by the Retention
Sweeper yields the same `404` outcome; and a job in status `failed` still
answers with a `200` snapshot carrying its error, which is distinct from
the `404` reply. -/
theorem getJob_known_unknown_deleted (store : List (String × Snapshot)) (id : String)
    (snap : Snapshot) (hmem : (id, snap) ∈ store)
    (hnd : (store.map Prod.fst).Nodup) :
    getJob store id = .ok snap ∧
    (∀ id2 : String, (∀ s2, (id2, s2) ∉ store) → getJob store id2 = .notFound) ∧
    getJob (deleteJob store id) id = .notFound ∧
    (snap.status = .failed → getJob store id ≠ .notFound) := by
  have hfound : getJob store id = .ok snap := by
    induction store with
    | nil => simp at hmem
    | cons kv store ih =>
      rcases List.mem_cons.mp hmem with heq | hmem2
      · subst heq
        simp [getJob, List.find?]
      · have hkvne : kv.1 ≠ id := by
          intro hcontra
          have : id ∈ store.map Prod.fst :=
            List.mem_map.mpr ⟨(id, snap), hmem2, rfl⟩
          rw [List.map_cons, List.nodup_cons] at hnd
          exact hnd.1 (hcontra ▸ this)
        have hne : (kv.1 == id) = false := by
          simp [hkvne]
        simp only [getJob, List.find?]
        rw [hne]
        have hnd2 : (store.map Prod.fst).Nodup := by
          rw [List.map_cons, List.nodup_cons] at hnd
          exact hnd.2
        exact ih hmem2 hnd2
  refine ⟨hfound, fun id2 h => getJob_eq_notFound store id2 h, ?_, ?_⟩
  · apply getJob_eq_notFound
    intro s2 hs2
    have := List.of_mem_filter hs2
    simp at this
  · intro _ hcontra
    rw [hfound] at hcontra
    exact JobReply.noConfusion hcontra

/-- A concrete failed snapshot used to exercise the Job Store lookup. -/
def failedSnapshotA : Snapshot :=
  { status := .failed, progress := 15, results := [], error := some "undecodable input" }

/-- A concrete two-entry Job Store used to exercise the lookup. -/
def sampleStore : List (String × Snapshot) :=
  [("job_a", failedSnapshotA), ("job_b", initialSnapshot)]

/-- Witness for C7: in the two-job store where `job_a` has failed, lookup
of `job_a` returns its failed snapshot (not `404`), lookup of an id absent
from the store returns `404`, and lookup after deletion returns `404`. -/
theorem getJob_known_unknown_deleted_witness :
    getJob sampleStore "job_a" = .ok failedSnapshotA ∧
    (∀ id2 : String, (∀ s2, (id2, s2) ∉ sampleStore) →
      getJob sampleStore id2 = .notFound) ∧
    getJob (deleteJob sampleStore "job_a") "job_a" = .notFound ∧
    (failedSnapshotA.status = .failed → getJob sampleStore "job_a" ≠ .notFound) :=
  getJob_known_unknown_deleted sampleStore "job_a" failedSnapshotA
    (by decide) (by decide)

/-- One tick of the polling interval: either the status request succeeds
and returns the job's current status, or it errors. -/
inductive PollOutcome
  | ok (status : JobStatus)
  | err
deriving DecidableEq, Repr

/-- `maxErrors` in `pollJobStatus` (VideoContext.jsx). -/
def maxErrors : Nat := 5

/-- The mutable state of one `pollJobStatus` loop: the consecutive error
count and whether the interval has been cleared. -/
structure PollState where
  errorCount : Nat
  stopped : Bool
deriving DecidableEq, Repr

/-- One iteration of the `setInterval` callback in `pollJobStatus`
(VideoContext.jsx): once the interval is cleared nothing further happens;
a successful poll resets `errorCount` to 0 and clears the interval when
the returned status is terminal; a failed poll increments `errorCount`
and clears the interval once it reaches `maxErrors`. -/
def pollStep (s : PollState) (o : PollOutcome) : PollState :=
  if s.stopped then s
  else
    match o with
    | .ok st => { errorCount := 0, stopped := st.isTerminal }
    | .err =>
      let ec := s.errorCount + 1
      { errorCount := ec, stopped := decide (maxErrors ≤ ec) }

/-- Running the polling loop over a sequence of poll outcomes, starting
from `errorCount = 0` and a live interval. -/
def pollRun (os : List PollOutcome) : PollState :=
  os.foldl pollStep { errorCount := 0, stopped := false }

/-- Written from the claim's words, independently of `pollStep`: polling
stops exactly when a terminal status is observed or the consecutive error
count (reset to zero by every successful poll) reaches `maxErrors`. -/
def pollStopSpec (ec : Nat) : List PollOutcome → Bool
  | [] => false
  | .ok st :: rest => st.isTerminal || pollStopSpec 0 rest
  | .err :: rest => decide (maxErrors ≤ ec + 1) || pollStopSpec (ec + 1) rest

/-- Once the interval is cleared, further ticks change nothing. -/
theorem pollStep_stopped (os : List PollOutcome) (s : PollState)
    (h : s.stopped = true) : os.foldl pollStep s = s := by
  induction os with
  | nil => rfl
  | cons o os ih =>
    have : pollStep s o = s := by simp [pollStep, h]
    simp [List.foldl_cons, this, ih]

/-- From any live state, the loop's final stopped flag agrees with the
claim's stopping condition evaluated at the current error count. -/
theorem pollRun_stop_aux (os : List PollOutcome) (s : PollState)
    (h : s.stopped = false) :
    (os.foldl pollStep s).stopped = pollStopSpec s.errorCount os := by
  induction os generalizing s with
  | nil => simpa [pollStopSpec]
  | cons o os ih =>
    cases o with
    | ok st =>
      cases hterm : st.isTerminal with
      | true =>
        have hstep : pollStep s (.ok st) = { errorCount := 0, stopped := true } := by
          simp [pollStep, h, hterm]
        simp [List.foldl_cons, hstep,
          pollStep_stopped os { errorCount := 0, stopped := true } rfl,
          pollStopSpec, hterm]
      | false =>
        have hstep : pollStep s (.ok st) = { errorCount := 0, stopped := false } := by
          simp [pollStep, h, hterm]
        simp only [List.foldl_cons, hstep, pollStopSpec, hterm, Bool.false_or]
        exact ih { errorCount := 0, stopped := false } rfl
    | err =>
      cases hcap : decide (maxErrors ≤ s.errorCount + 1) with
      | true =>
        have hstep : pollStep s .err =
            { errorCount := s.errorCount + 1, stopped := true } := by
          simp only [pollStep, h, Bool.false_eq_true, if_false]
          rw [hcap]
        simp [List.foldl_cons, hstep,
          pollStep_stopped os { errorCount := s.errorCount + 1, stopped := true } rfl,
          pollStopSpec, hcap]
      | false =>
        have hstep : pollStep s .err =
            { errorCount := s.errorCount + 1, stopped := false } := by
          simp only [pollStep, h, Bool.false_eq_true, if_false]
          rw [hcap]
        simp only [List.foldl_cons, hstep, pollStopSpec, hcap, Bool.false_or]
        exact ih { errorCount := s.errorCount + 1, stopped := false } rfl

/-- C8 — For every sequence of poll outcomes, the polling loop stops
exactly when a terminal status (`completed`, `failed`, `cancelled`) is
observed or `maxErrors = 5` consecutive poll errors occur, and any single
successful poll of a live loop resets the consecutive-error count to
zero. -/
theorem polling_stops_iff_terminal_or_maxErrors (os : List PollOutcome) :
    (pollRun os).stopped = pollStopSpec 0 os ∧
    (∀ (s : PollState) (st : JobStatus), s.stopped = false →
      (pollStep s (.ok st)).errorCount = 0) := by
  refine ⟨pollRun_stop_aux os _ rfl, ?_⟩
  intro s st hs
  simp [pollStep, hs]

/-- Witness for C8: four consecutive errors followed by a success leave
the loop live with the error count reset; a fifth consecutive error stops
it; a terminal observation stops it. -/
theorem polling_stops_iff_terminal_or_maxErrors_witness :
    ((pollRun [.err, .err, .err, .err, .ok .processing, .err]).stopped =
      pollStopSpec 0 [.err, .err, .err, .err, .ok .processing, .err]) ∧
    ((pollRun [.err, .err, .err, .err, .err]).stopped =
      pollStopSpec 0 [.err, .err, .err, .err, .err]) ∧
    ((pollRun [.ok .completed]).stopped = pollStopSpec 0 [.ok .completed]) ∧
    (pollStep { errorCount := 4, stopped := false } (.ok .processing)).errorCount = 0 :=
  ⟨(polling_stops_iff_terminal_or_maxErrors _).1,
   (polling_stops_iff_terminal_or_maxErrors [.err, .err, .err, .err, .err]).1,
   (polling_stops_iff_terminal_or_maxErrors [.ok .completed]).1,
   (polling_stops_iff_terminal_or_maxErrors []).2 _ .processing rfl⟩

/-- An upload-queue entry, as built by `addToQueue` in VideoContext.jsx:
an id, a status string, and the fields written later by `processQueue`
(`jobId` on success, `error` on failure). -/
structure QueueItem where
  id : Nat
  status : String
  jobId : Option Nat
  error : Option String
deriving DecidableEq, Repr

/-- `addToQueue` (VideoContext.jsx): a fresh entry starts in status
`pending` with no job id and no error. -/
def mkQueueItem (i : Nat) : QueueItem :=
  { id := i, status := "pending", jobId := none, error := none }

/-- The `setUploadQueue(prev => prev.map(q => q.id === item.id ? {...q, ...}
: q))` pattern used throughout `processQueue`: rewrite exactly the entries
whose id matches, leave every other entry untouched. -/
def updateItem (q : List QueueItem) (i : Nat) (f : QueueItem → QueueItem) :
    List QueueItem :=
  q.map (fun x => if x.id = i then f x else x)

/-- Abstraction of the awaited calls for one queue item in `processQueue`:
either every upload/process call succeeds and the backend returns a job
id, or some call throws with an error message. -/
inductive ItemOutcome
  | success (jobId : Nat)
  | failure (msg : String)
deriving DecidableEq, Repr

/-- The body of the `for (const item of pendingItems)` loop in
`processQueue` (VideoContext.jsx): the entry is first marked
`uploading_video`; on success the entry then moves through
`uploading_presentation` and `processing` to `completed` with the created
job's id; if any awaited call throws, the `catch` block marks the entry
`failed` with the error message — and the loop then simply continues with
the next item. -/
def processItem (outcome : Nat → ItemOutcome) (q : List QueueItem)
    (it : QueueItem) : List QueueItem :=
  let q1 := updateItem q it.id (fun x => { x with status := "uploading_video" })
  match outcome it.id with
  | .success jid =>
    let q2 := updateItem q1 it.id (fun x => { x with status := "uploading_presentation" })
    let q3 := updateItem q2 it.id (fun x => { x with status := "processing" })
    updateItem q3 it.id (fun x => { x with status := "completed", jobId := some jid })
  | .failure msg =>
    updateItem q1 it.id (fun x => { x with status := "failed", error := some msg })

/-- `uploadQueue.filter(item => item.status === 'pending')` in
`processQueue`: the snapshot of pending entries taken when the function is
invoked. -/
def pendingItems (q : List QueueItem) : List QueueItem :=
  q.filter (fun it => it.status == "pending")

/-- `processQueue` (VideoContext.jsx): iterate the loop body over the
pending snapshot, threading the queue state. -/
def processQueue (outcome : Nat → ItemOutcome) (q : List QueueItem) :
    List QueueItem :=
  (pendingItems q).foldl (processItem outcome) q

/-- The ids for which `processQueue` issues upload/process requests:
exactly the ids of the entries that were pending at invocation. -/
def requestedIds (q : List QueueItem) : List Nat :=
  (pendingItems q).map QueueItem.id

/-- The final queue entry `processQueue` leaves for a processed item:
`completed` with the created job's id on success, `failed` with the error
message on failure — determined solely by that item's own outcome. -/
def finalItem (outcome : Nat → ItemOutcome) (it : QueueItem) : QueueItem :=
  match outcome it.id with
  | .success jid => { it with status := "completed", jobId := some jid }
  | .failure msg => { it with status := "failed", error := some msg }

/-- `updateItem` leaves entries with a different id untouched. -/
theorem mem_updateItem_of_ne (q : List QueueItem) (i : Nat)
    (f : QueueItem → QueueItem) (x : QueueItem) (hx : x ∈ q)
    (hne : x.id ≠ i) : x ∈ updateItem q i f := by
  have : (if x.id = i then f x else x) ∈ updateItem q i f :=
    List.mem_map_of_mem _ hx
  rwa [if_neg hne] at this

/-- `processItem` leaves entries with a different id untouched. -/
theorem mem_processItem_of_ne (outcome : Nat → ItemOutcome)
    (q : List QueueItem) (it : QueueItem) (x : QueueItem) (hx : x ∈ q)
    (hne : x.id ≠ it.id) : x ∈ processItem outcome q it := by
  unfold processItem
  cases outcome it.id with
  | success jid =>
    exact mem_updateItem_of_ne _ _ _ x
      (mem_updateItem_of_ne _ _ _ x
        (mem_updateItem_of_ne _ _ _ x
          (mem_updateItem_of_ne _ _ _ x hx hne) hne) hne) hne
  | failure msg =>
    exact mem_updateItem_of_ne _ _ _ x
      (mem_updateItem_of_ne _ _ _ x hx hne) hne

/-- Folding the loop body over items whose ids all differ from `x.id`
leaves `x` in the queue untouched. -/
theorem mem_foldl_of_ne (outcome : Nat → ItemOutcome)
    (its : List QueueItem) (x : QueueItem) :
    ∀ acc : List QueueItem, (∀ it ∈ its, it.id ≠ x.id) → x ∈ acc →
      x ∈ its.foldl (processItem outcome) acc := by
  induction its with
  | nil => intro acc _ hx; exact hx
  | cons i its ih =>
    intro acc hne hx
    rw [List.foldl_cons]
    exact ih _ (fun it hit => hne it (List.mem_cons_of_mem i hit))
      (mem_processItem_of_ne outcome acc i x hx
        (fun hcontra => hne i (List.mem_cons_self i its) hcontra.symm))

/-- A matching entry is rewritten by `f` and stays in the queue. -/
theorem mem_updateItem_self (q : List QueueItem) (i : Nat)
    (f : QueueItem → QueueItem) (x : QueueItem) (hx : x ∈ q)
    (hid : x.id = i) : f x ∈ updateItem q i f := by
  have h := List.mem_map_of_mem (fun y => if y.id = i then f y else y) hx
  simp only at h
  rwa [if_pos hid] at h

/-- The loop body leaves the processed item's own entry at the terminal
state determined by its outcome. -/
theorem processItem_mem_final (outcome : Nat → ItemOutcome)
    (q : List QueueItem) (it : QueueItem) (hit : it ∈ q) :
    finalItem outcome it ∈ processItem outcome q it := by
  cases hout : outcome it.id with
  | success jid =>
    simp only [processItem, finalItem, hout]
    have h1 := mem_updateItem_self q it.id
      (fun x => { x with status := "uploading_video" }) it hit rfl
    have h2 := mem_updateItem_self _ it.id
      (fun x => { x with status := "uploading_presentation" }) _ h1 rfl
    have h3 := mem_updateItem_self _ it.id
      (fun x => { x with status := "processing" }) _ h2 rfl
    exact mem_updateItem_self _ it.id
      (fun x => { x with status := "completed", jobId := some jid })
      { it with status := "processing" } h3 rfl
  | failure msg =>
    simp only [processItem, finalItem, hout]
    have h1 := mem_updateItem_self q it.id
      (fun x => { x with status := "uploading_video" }) it hit rfl
    exact mem_updateItem_self _ it.id
      (fun x => { x with status := "failed", error := some msg })
      { it with status := "uploading_video" } h1 rfl

/-- The terminal entry written for an item keeps the item's id. -/
theorem finalItem_id (outcome : Nat → ItemOutcome) (it : QueueItem) :
    (finalItem outcome it).id = it.id := by
  cases h : outcome it.id <;> simp [finalItem, h]

/-- Processing the pending snapshot drives each pending item — whatever
happened to the items before it — to the terminal entry determined by its
own outcome. -/
theorem mem_foldl_final (outcome : Nat → ItemOutcome) (its : List QueueItem) :
    ∀ (acc : List QueueItem) (j : QueueItem), j ∈ its →
      (its.map QueueItem.id).Nodup → j ∈ acc →
      finalItem outcome j ∈ its.foldl (processItem outcome) acc := by
  induction its with
  | nil => intro acc j hj; simp at hj
  | cons i its ih =>
    intro acc j hj hnd hacc
    rw [List.foldl_cons]
    have hnd2 : (its.map QueueItem.id).Nodup := by
      rw [List.map_cons, List.nodup_cons] at hnd
      exact hnd.2
    rcases List.mem_cons.mp hj with heq | hj2
    · subst heq
      have hfin := processItem_mem_final outcome acc j hacc
      apply mem_foldl_of_ne outcome its (finalItem outcome j) _ ?_ hfin
      intro it hit heq2
      rw [List.map_cons, List.nodup_cons] at hnd
      rw [finalItem_id] at heq2
      exact hnd.1 (heq2 ▸ List.mem_map_of_mem QueueItem.id hit)
    · have hji : j.id ≠ i.id := by
        intro hcontra
        rw [List.map_cons, List.nodup_cons] at hnd
        exact hnd.1 (hcontra ▸ List.mem_map_of_mem QueueItem.id hj2)
      exact ih _ j hj2 hnd2 (mem_processItem_of_ne outcome acc i j hacc hji)

/-- C9 — `processQueue` acts only on upload-queue entries whose status is
`pending` at the moment it is invoked: for every entry in any other
status, no upload or process request is issued for its id and its queue
entry is left unchanged in the final queue, so re-invoking `processQueue`
never re-uploads or re-submits an already-handled pair. (Entry ids are
assumed pairwise distinct, as produced by `addToQueue`.) -/
theorem processQueue_frame_non_pending (outcome : Nat → ItemOutcome)
    (q : List QueueItem) (x : QueueItem) (hx : x ∈ q)
    (hs : x.status ≠ "pending") (hnd : (q.map QueueItem.id).Nodup) :
    x.id ∉ requestedIds q ∧ x ∈ processQueue outcome q := by
  have hids : ∀ it ∈ pendingItems q, it.id ≠ x.id := by
    intro it hit heq
    have hitq : it ∈ q := List.mem_of_mem_filter hit
    have hitp : it.status = "pending" := by
      have h := List.of_mem_filter hit
      simpa using h
    have : it = x := by
      refine List.inj_on_of_nodup_map hnd hitq hx heq
    exact hs (this ▸ hitp)
  constructor
  · intro hcontra
    obtain ⟨it, hit, hiteq⟩ := List.mem_map.mp hcontra
    exact hids it hit hiteq
  · exact mem_foldl_of_ne outcome (pendingItems q) x q hids hx

/-- A concrete upload queue with one already-handled entry and one
pending entry. -/
def sampleQueue : List QueueItem :=
  [{ id := 1, status := "completed", jobId := some 7, error := none },
   mkQueueItem 2]

/-- Witness for C9: in `sampleQueue`, the already-completed entry 1 is
not among the requested ids and survives `processQueue` unchanged, even
though every request in this run fails. -/
theorem processQueue_frame_non_pending_witness :
    (1 : Nat) ∉ requestedIds sampleQueue ∧
    ({ id := 1, status := "completed", jobId := some 7, error := none } : QueueItem) ∈
      processQueue (fun _ => .failure "network error") sampleQueue :=
  processQueue_frame_non_pending (fun _ => .failure "network error") sampleQueue
    { id := 1, status := "completed", jobId := some 7, error := none }
    (by decide) (by decide) (by decide)

/-- One `(video_path, presentation_path)` pair of a batch request. -/
structure BatchItem where
  videoPath : String
  presentationPath : String
deriving DecidableEq, Repr

/-- A created job together with the input pair it was created for. -/
structure JobRecord where
  videoPath : String
  presentationPath : String
  snap : Snapshot
deriving DecidableEq, Repr

/-- Modelled from the spec: the job created for one batch item — a fresh
independent `pending` job referencing that item's uploaded paths. -/
def mkJobRecord (it : BatchItem) : JobRecord :=
  { videoPath := it.videoPath, presentationPath := it.presentationPath,
    snap := initialSnapshot }

/-- Modelled from the spec: `POST /videos/batch` creates one independent
job per submitted pair, in order. -/
def batchSubmit (items : List BatchItem) : List JobRecord :=
  items.map mkJobRecord

/-- C4 — Batch submission of N pairs creates exactly N independent jobs,
one per pair in order; and in the submission loop a permanent failure
while processing pair k never changes the terminal status of, blocks, or
rolls back any other pending pair j ≠ k: every pending pair still reaches
the terminal entry determined solely by its own outcome (the loop
continues past failed items), and that terminal entry depends only on the
pair's own outcome. -/
theorem batch_jobs_independent (items : List BatchItem)
    (outcome : Nat → ItemOutcome) (q : List QueueItem) (j : QueueItem)
    (hj : j ∈ q) (hjs : j.status = "pending")
    (hnd : (q.map QueueItem.id).Nodup) :
    (batchSubmit items).length = items.length ∧
    (∀ (i : Nat) (hi : i < (batchSubmit items).length),
      (batchSubmit items).get ⟨i, hi⟩ =
        mkJobRecord (items.get ⟨i, by simpa [batchSubmit] using hi⟩)) ∧
    finalItem outcome j ∈ processQueue outcome q ∧
    (∀ outcome2 : Nat → ItemOutcome, outcome2 j.id = outcome j.id →
      finalItem outcome2 j = finalItem outcome j) := by
  refine ⟨by simp [batchSubmit], ?_, ?_, ?_⟩
  · intro i hi
    simp [batchSubmit, List.get_eq_getElem, List.getElem_map]
  · have hpend : j ∈ pendingItems q := by
      apply List.mem_filter.mpr
      exact ⟨hj, by simp [hjs]⟩
    have hsub : List.Sublist ((pendingItems q).map QueueItem.id)
        (q.map QueueItem.id) :=
      List.Sublist.map QueueItem.id (List.filter_sublist q)
    exact mem_foldl_final outcome (pendingItems q) q j hpend
      (List.Nodup.sublist hsub hnd) hj
  · intro outcome2 heq
    unfold finalItem
    rw [heq]

/-- A concrete two-pair batch request. -/
def sampleBatch : List BatchItem :=
  [{ videoPath := "uploads/lecture1.mp4", presentationPath := "uploads/lecture1.pptx" },
   { videoPath := "uploads/lecture2.mp4", presentationPath := "uploads/lecture2.pdf" }]

/-- The per-item outcome used in the C4 witness: pair 1 fails permanently,
pair 2 succeeds. -/
def sampleOutcome : Nat → ItemOutcome :=
  fun i => if i = 1 then .failure "unsupported presentation format" else .success 42

/-- A concrete upload queue with two pending entries. -/
def samplePendingQueue : List QueueItem :=
  [mkQueueItem 1, mkQueueItem 2]

/-- Witness for C4: submitting the two-pair batch yields two jobs in
order, and although pair 1 fails permanently, pending pair 2 still reaches
`completed` with its own job id; its terminal entry is insensitive to the
other pair's outcome. -/
theorem batch_jobs_independent_witness :
    (batchSubmit sampleBatch).length = sampleBatch.length ∧
    (∀ (i : Nat) (hi : i < (batchSubmit sampleBatch).length),
      (batchSubmit sampleBatch).get ⟨i, hi⟩ =
        mkJobRecord (sampleBatch.get ⟨i, by simpa [batchSubmit] using hi⟩)) ∧
    finalItem sampleOutcome (mkQueueItem 2) ∈
      processQueue sampleOutcome samplePendingQueue ∧
    (∀ outcome2 : Nat → ItemOutcome,
      outcome2 (mkQueueItem 2).id = sampleOutcome (mkQueueItem 2).id →
      finalItem outcome2 (mkQueueItem 2) = finalItem sampleOutcome (mkQueueItem 2)) :=
  batch_jobs_independent sampleBatch sampleOutcome samplePendingQueue
    (mkQueueItem 2) (by decide) (by decide) (by decide)

/-- A stored object in one of the GCS buckets: its full path within the
bucket and its age in whole days (the unit of the lifecycle `age`
condition). -/
structure StoredObject where
  name : String
  ageDays : Nat
deriving DecidableEq, Repr

/-- Character-list head test used to model the GCS `matchesPrefix`
condition: the first argument read in full at the head of the second. -/
def charsStart : List Char → List Char → Bool
  | [], _ => true
  | _ :: _, [] => false
  | p :: ps, c :: cs => (p = c) && charsStart ps cs

/-- Whether `name` begins with the characters of `pre` (GCS
`matchesPrefix` semantics for one entry). -/
def nameStarts (name pre : String) : Bool :=
  charsStart pre.data name.data

/-- The three path namespaces named by the lifecycle rule's
`matchesPrefix` condition (`setup-gcs-lifecycle.ps1` / lifecycle-24h
configuration). -/
def sweptNamespaces : List String :=
  ["uploads/", "outputs/", "job-tracking/"]

/-- The lifecycle rule's `age` condition: 1 day (24 hours). -/
def retentionAgeDays : Nat := 1

/-- The lifecycle rule of `setup-gcs-lifecycle.ps1`: an object is deleted
when its age has reached the `age` condition AND its path matches one of
the three `matchesPrefix` entries. -/
def shouldDelete (o : StoredObject) : Bool :=
  decide (retentionAgeDays ≤ o.ageDays) &&
    sweptNamespaces.any (fun p => nameStarts o.name p)

/-- One invocation of the retention sweep over the bucket contents:
objects selected by the lifecycle rule are deleted, all others kept. -/
def sweep (objs : List StoredObject) : List StoredObject :=
  objs.filter (fun o => !shouldDelete o)

/-- An object the lifecycle rule does not select survives any number of
sweeps. -/
theorem mem_sweep_iterate (objs : List StoredObject) (o : StoredObject)
    (ho : o ∈ objs) (hsd : shouldDelete o = false) :
    ∀ n : Nat, o ∈ sweep^[n] objs := by
  intro n
  induction n with
  | zero => exact ho
  | succ n ih =>
    rw [Function.iterate_succ_apply']
    exact List.mem_filter.mpr ⟨ih, by simp [hsd]⟩

/-- C10 — The retention deletion rule is scoped by prefix: an object whose
path starts with none of `uploads/`, `outputs/`, `job-tracking/` is never
deleted by any number of sweeps, regardless of its age; and conversely
every object a sweep deletes has its path under one of those three
prefixes. -/
theorem retention_scoped_by_prefixes (objs : List StoredObject)
    (o : StoredObject) (ho : o ∈ objs)
    (hout : ∀ p ∈ sweptNamespaces, nameStarts o.name p = false) :
    (∀ n : Nat, o ∈ sweep^[n] objs) ∧
    (∀ x ∈ objs, x ∉ sweep objs →
      ∃ p ∈ sweptNamespaces, nameStarts x.name p = true) := by
  constructor
  · have hany : sweptNamespaces.any (fun p => nameStarts o.name p) = false := by
      rw [List.any_eq_false]
      intro p hp
      simp [hout p hp]
    exact mem_sweep_iterate objs o ho (by simp [shouldDelete, hany])
  · intro x hx hnot
    have hsd : shouldDelete x = true := by
      by_contra hcontra
      exact hnot (List.mem_filter.mpr ⟨hx, by simp [eq_false_of_ne_true hcontra]⟩)
    have hany : sweptNamespaces.any (fun p => nameStarts x.name p) = true :=
      (Bool.and_eq_true _ _ |>.mp hsd).2
    obtain ⟨p, hp, hstart⟩ := List.any_eq_true.mp hany
    exact ⟨p, hp, hstart⟩

/-- A concrete bucket with the root-level `qa.jpg` placeholder and an old
uploaded source. -/
def sampleBucket : List StoredObject :=
  [{ name := "qa.jpg", ageDays := 100 }, { name := "uploads/v.mp4", ageDays := 100 }]

/-- Witness for C10: the 100-day-old root-level `qa.jpg` survives three
consecutive sweeps of `sampleBucket`, while the deleted
`uploads/v.mp4` is indeed under a swept prefix. -/
theorem retention_scoped_by_prefixes_witness :
    ({ name := "qa.jpg", ageDays := 100 } : StoredObject) ∈ sweep^[3] sampleBucket ∧
    ∃ p ∈ sweptNamespaces, nameStarts "uploads/v.mp4" p = true :=
  ⟨(retention_scoped_by_prefixes sampleBucket
      { name := "qa.jpg", ageDays := 100 } (by decide) (by decide)).1 3,
   (retention_scoped_by_prefixes sampleBucket
      { name := "qa.jpg", ageDays := 100 } (by decide) (by decide)).2
     { name := "uploads/v.mp4", ageDays := 100 } (by decide) (by decide)⟩

/-- Counterexample to C5 as stated: the claim's "every object older than
the threshold is deleted" fails on the code's lifecycle rule — the
root-level object `qa.jpg`, aged 2 days (well past the 1-day/24h
threshold), survives a sweep untouched because its path matches none of
the rule's prefixes. -/
theorem retention_deletes_by_age_counterexample :
    retentionAgeDays < 2 ∧
    sweep [{ name := "qa.jpg", ageDays := 2 }] =
      [{ name := "qa.jpg", ageDays := 2 }] := by
  decide

/-- C5 (amended) — For objects under the swept prefixes the retention rule
deletes exactly those whose age has reached the threshold (1 day = 24h):
a stored object is deleted by a sweep iff its age has reached the
threshold and its path is under `uploads/`, `outputs/` or `job-tracking/`;
sweeping is idempotent, and an object younger than the threshold is left
untouched by any number of sweep invocations. -/
theorem retention_age_threshold_amended (objs : List StoredObject)
    (o : StoredObject) (ho : o ∈ objs) :
    (o ∉ sweep objs ↔ (retentionAgeDays ≤ o.ageDays ∧
      ∃ p ∈ sweptNamespaces, nameStarts o.name p = true)) ∧
    sweep (sweep objs) = sweep objs ∧
    (o.ageDays < retentionAgeDays → ∀ n : Nat, o ∈ sweep^[n] objs) := by
  refine ⟨?_, ?_, ?_⟩
  · constructor
    · intro hnot
      have hsd : shouldDelete o = true := by
        by_contra hcontra
        exact hnot (List.mem_filter.mpr ⟨ho, by simp [eq_false_of_ne_true hcontra]⟩)
      obtain ⟨hage, hany⟩ := Bool.and_eq_true _ _ |>.mp hsd
      exact ⟨of_decide_eq_true hage, List.any_eq_true.mp hany⟩
    · rintro ⟨hage, p, hp, hstart⟩ hmem
      have hkeep := (List.mem_filter.mp hmem).2
      have hsd : shouldDelete o = true := by
        simp only [shouldDelete, Bool.and_eq_true, decide_eq_true_eq]
        exact ⟨hage, List.any_eq_true.mpr ⟨p, hp, hstart⟩⟩
      simp [hsd] at hkeep
  · simp [sweep, List.filter_filter]
  · intro hyoung
    have hsd : shouldDelete o = false := by
      simp only [shouldDelete, Bool.and_eq_false_iff]
      left
      simpa using Nat.not_le.mpr hyoung
    exact mem_sweep_iterate objs o ho hsd

/-- A concrete bucket with one expired upload and one fresh output. -/
def sampleBucket2 : List StoredObject :=
  [{ name := "uploads/a.mp4", ageDays := 3 }, { name := "outputs/j/c.csv", ageDays := 0 }]

/-- Witness for the amended C5: the 3-day-old upload is deleted by the
sweep, the sweep is idempotent on this bucket, and the fresh output
survives two consecutive sweeps. -/
theorem retention_age_threshold_amended_witness :
    ({ name := "uploads/a.mp4", ageDays := 3 } : StoredObject) ∉ sweep sampleBucket2 ∧
    sweep (sweep sampleBucket2) = sweep sampleBucket2 ∧
    ({ name := "outputs/j/c.csv", ageDays := 0 } : StoredObject) ∈ sweep^[2] sampleBucket2 :=
  ⟨(retention_age_threshold_amended sampleBucket2
      { name := "uploads/a.mp4", ageDays := 3 } (by decide)).1.mpr
      ⟨by decide, "uploads/", by decide, by decide⟩,
   (retention_age_threshold_amended sampleBucket2
      { name := "uploads/a.mp4", ageDays := 3 } (by decide)).2.1,
   (retention_age_threshold_amended sampleBucket2
      { name := "outputs/j/c.csv", ageDays := 0 } (by decide)).2.2 (by decide) 2⟩

end ChapterMaker
